import Mathlib

/-!
Verification of the StudyBits question-matching engine
(`Blueprints/QuestionMatcher.py`) against its specification.

Modelling conventions of the shallow embedding:
* Python strings that undergo character-level processing (tags) are modelled
  as lists of character codes (`Word := List Nat`); identifiers that are only
  compared for equality stay `String`.
* `str.lower`, the regex classes `\w`/`\s` and the substitutions of
  `split_tags` are modelled over the ASCII range, which is where all the
  behaviour relevant to the spec lives.
* Python `float` arithmetic is modelled over `ℚ`; `round(x, 2)` is modelled
  as round-half-to-even at two decimals, matching Python's rounding mode.
* Firestore reads are modelled as functions into `Except Unit (Option _)`:
  `.error ()` models a raised exception during the fetch, `.ok none` a
  document that does not exist (`doc.exists = False`).
* Python dicts preserve insertion order, and `sorted` is a stable sort;
  grouping is modelled by an order-preserving upsert list and `sorted` by a
  stable insertion sort over the same key.
-/

/-- Decidable equality for fetch results, written without proof transport
so that the kernel can evaluate it on concrete data. -/
instance exceptDecEq {a : Type} [DecidableEq a] : DecidableEq (Except Unit a)
  | .error _, .error _ => isTrue rfl
  | .error _, .ok _ => isFalse (fun h => Except.noConfusion h)
  | .ok _, .error _ => isFalse (fun h => Except.noConfusion h)
  | .ok x, .ok y =>
    match decEq x y with
    | isTrue h => isTrue (congrArg Except.ok h)
    | isFalse h => isFalse (fun hh => h (Except.ok.inj hh))

namespace SB

/-- A processed tag word: a Python string as a list of character codes. -/
abbrev Word := List Nat

/-- Encode a Lean string literal as a `Word` (input helper only). -/
def pyStr (s : String) : Word := s.toList.map Char.toNat

/-- `STOPWORDS` from `QuestionMatcher.py` line 10. -/
def STOPWORDS : List Word :=
  [pyStr "the", pyStr "and", pyStr "or", pyStr "of", pyStr "a", pyStr "an",
   pyStr "in", pyStr "on", pyStr "to", pyStr "for", pyStr "by", pyStr "with",
   pyStr "at", pyStr "from", pyStr "as", pyStr "is"]

/-- `str.lower` on one character code (ASCII range). -/
def pyLowerChar (c : Nat) : Nat := if 65 ≤ c ∧ c ≤ 90 then c + 32 else c

/-- The substitution on line 24 of `split_tags`: a hyphen (code 45) or a
slash (code 47) becomes a space (code 32). -/
def dashSub (c : Nat) : Nat := if c = 45 ∨ c = 47 then 32 else c

/-- The regex class `\w` (ASCII): digit, letter or underscore. -/
def isWordChar (c : Nat) : Bool :=
  (48 ≤ c && c ≤ 57) || (65 ≤ c && c ≤ 90) || (97 ≤ c && c ≤ 122) || c = 95

/-- The regex class `\s` (ASCII): space, tab, newline, vertical tab,
form feed, carriage return. -/
def isSpaceChar (c : Nat) : Bool :=
  c = 32 || c = 9 || c = 10 || c = 11 || c = 12 || c = 13

/-- Lines 23–25 of `split_tags`: lowercase the tag, turn `-`/`/` into
spaces, then delete every character that is neither `\w` nor `\s`. -/
def cleanTag (t : Word) : Word :=
  (((t.map pyLowerChar).map dashSub).filter fun c => isWordChar c || isSpaceChar c)

/-- Helper for `splitWs`; `acc` holds the current word reversed. -/
def splitWsAux : List Nat → List Nat → List Word
  | [], acc => if acc = [] then [] else [acc.reverse]
  | c :: cs, acc =>
    if isSpaceChar c then
      if acc = [] then splitWsAux cs [] else acc.reverse :: splitWsAux cs []
    else splitWsAux cs (c :: acc)

/-- Python `str.split()` with no argument: split on runs of whitespace,
dropping empty pieces. -/
def splitWs (s : Word) : List Word := splitWsAux s []

/-- Python `str.strip()`: drop leading and trailing whitespace. -/
def pyStrip (w : Word) : Word :=
  ((w.dropWhile fun c => isSpaceChar c).reverse.dropWhile fun c => isSpaceChar c).reverse

/-- Does the word end in `"s"` (code 115)? (`word.endswith("s")`). -/
def endsInS (w : Word) : Bool := w.getLast? = some 115

/-- Lines 27–31 of `split_tags`, the per-word step: skip stopwords and
blank words, then strip a trailing `s` from words longer than 3. -/
def normWord (w : Word) : Option Word :=
  if w ∈ STOPWORDS ∨ pyStrip w = [] then none
  else some (if endsInS w ∧ 3 < w.length then w.dropLast else w)

/-- All canonical words contributed by one raw tag. -/
def tagWords (t : Word) : List Word := (splitWs (cleanTag t)).filterMap normWord

/-- `QuestionMatcher.split_tags` (lines 20–32): the union, as a set, of the
canonical words of every raw tag. -/
def splitTags (tags : List Word) : Finset Word := (tags.flatMap tagWords).toFinset

/-- Round-half-to-even to an integer, the rounding mode of Python `round`. -/
def rhe (x : ℚ) : ℤ :=
  if x - ⌊x⌋ < 1 / 2 then ⌊x⌋
  else if 1 / 2 < x - ⌊x⌋ then ⌊x⌋ + 1
  else if Even ⌊x⌋ then ⌊x⌋ else ⌊x⌋ + 1

/-- Python `round(x, 2)`: round to two decimal places, ties to even. -/
def round2 (x : ℚ) : ℚ := (rhe (x * 100) : ℚ) / 100

example : splitTags [pyStr "cats"] = {pyStr "cat"} := by decide
example : splitTags [pyStr "gas"] = {pyStr "gas"} := by decide
example : splitTags [pyStr "as"] = ∅ := by decide
example : splitTags [pyStr "thes"] = {pyStr "the"} := by decide
example : splitTags [pyStr "Algebra Basics"] = {pyStr "algebra", pyStr "basic"} := by decide
example : round2 (1 / 3 * 2) = 67 / 100 := by norm_num [round2, rhe]
example : round2 (1 / 2 * 2) = 1 := by norm_num [round2, rhe]

/-- A question document (`questions/{id}`), with the fields read by the
matcher; `course_name`/`unit_name` are already `.get(..., "")`-defaulted. -/
structure QDoc where
  tags : List Word
  course : Option String
  unit : Option String
  course_name : String
  unit_name : String
deriving DecidableEq

/-- A course document (`courses/{id}`), with the fields read by the matcher. -/
structure CourseDoc where
  name : String
  tags : List Word
deriving DecidableEq

/-- A unit document (`courses/{id}/units/{id}`). -/
structure UnitDoc where
  name : String
  tags : List Word
deriving DecidableEq

/-- A user learning-state document (`learning/{uid}/courses/{courseId}`),
each list field already `.get(..., [])`-defaulted. -/
structure UserState where
  likedQuestions : List String
  dislikedQuestions : List String
  answeredQuestions : List String
  subscribedCourses : List String
deriving DecidableEq

/-- The document store. Each point lookup yields `.error ()` (the client
raised), `.ok none` (`doc.exists = False`) or `.ok (some doc)`.
`questions` is the stream order of `db.collection("questions").stream()`. -/
structure DB where
  questions : List (String × QDoc)
  courses : String → Except Unit (Option CourseDoc)
  units : String → String → Except Unit (Option UnitDoc)
  questionById : String → Except Unit (Option QDoc)
  learning : String → String → Except Unit (Option UserState)

/-- The arguments of `find_relevant_questions`. -/
structure Params where
  liked : Finset Word
  disliked : Finset Word
  courseTags : Finset Word
  unitTags : Finset Word
  answered : Finset String
  subscribed : Finset String
  matchThreshold : ℚ
  dislikedThreshold : ℚ
  refCourse : Option String
  refUnit : Option String

/-- One matched-question record appended on lines 141–149. -/
structure Candidate where
  course_id : Option String
  course_name : String
  unit_id : Option String
  unit_name : String
  question_id : String
  score : ℕ
  priority : ℚ
deriving DecidableEq

/-- Python truthiness of an optional string: `None` and `""` are falsy. -/
def pyTruthy : Option String → Bool
  | none => false
  | some s => s != ""

/-- Line 129: `1 if course_id in subscribed_courses else 0`; membership of
`None` in a set of strings is `False`. -/
def subscribedBoost (subs : Finset String) (course : Option String) : ℚ :=
  match course with
  | some cid => if cid ∈ subs then 1 else 0
  | none => 0

/-- Line 130: `-1 if qid in answered_questions else 0`. -/
def answeredPenalty (answered : Finset String) (qid : String) : ℚ :=
  if qid ∈ answered then -1 else 0

/-- Line 131: `1 if course_id == reference_course_id else 0`. -/
def sameCourseBoost (ref : Option String) (course : Option String) : ℚ :=
  if course = ref then 1 else 0

/-- Line 132: `1 if reference_unit_id and unit_id == reference_unit_id
else 0`. -/
def sameUnitBoost (ref : Option String) (unit : Option String) : ℚ :=
  if pyTruthy ref = true ∧ unit = ref then 1 else 0

/-- `QuestionMatcher.get_course_tags` (lines 45–52). A `None` course id
makes `document(None)` target a freshly auto-generated id, which does not
exist, so the result is the empty set. -/
def getCourseTags (db : DB) (cid : Option String) : Except Unit (Finset Word) :=
  match cid with
  | none => .ok ∅
  | some c =>
    match db.courses c with
    | .error e => .error e
    | .ok none => .ok ∅
    | .ok (some doc) => .ok (splitTags doc.tags)

/-- `QuestionMatcher.get_unit_tags` (lines 54–69): falsy unit id returns
the empty set before any fetch; a `None` course id again targets a fresh
auto-generated path that does not exist. -/
def getUnitTags (db : DB) (cid : Option String) (uid : Option String) :
    Except Unit (Finset Word) :=
  if pyTruthy uid then
    match cid, uid with
    | some c, some u =>
      match db.units c u with
      | .error e => .error e
      | .ok none => .ok ∅
      | .ok (some doc) => .ok (splitTags doc.tags)
    | _, _ => .ok ∅
  else .ok ∅

/-- `QuestionMatcher.get_effective_tags` (lines 71–77): own tags ∪ course
tags ∪ unit tags, course fetched before unit. -/
def getEffectiveTags (db : DB) (q : QDoc) : Except Unit (Finset Word) :=
  match getCourseTags db q.course with
  | .error e => .error e
  | .ok ct =>
    match getUnitTags db q.course q.unit with
    | .error e => .error e
    | .ok ut => .ok (splitTags q.tags ∪ ct ∪ ut)

/-- The candidate built on lines 122–149 for a question that passed every
filter. -/
def mkCandidate (P : Params) (qid : String) (q : QDoc) (eff : Finset Word) :
    Candidate :=
  let overlap := (eff ∩ P.liked).card
  let likedBoost := round2 ((overlap : ℚ) / (eff.card : ℚ) * 2)
  { course_id := q.course
    course_name := q.course_name
    unit_id := q.unit
    unit_name := q.unit_name
    question_id := qid
    score := overlap
    priority := likedBoost + subscribedBoost P.subscribed q.course +
      sameCourseBoost P.refCourse q.course + sameUnitBoost P.refUnit q.unit +
      answeredPenalty P.answered qid }

/-- One iteration of the scan loop of `find_relevant_questions`
(lines 96–149): `.ok none` means the question was skipped. -/
def scanQuestion (db : DB) (P : Params) (q : String × QDoc) :
    Except Unit (Option Candidate) :=
  match getEffectiveTags db q.2 with
  | .error e => .error e
  | .ok eff =>
    if eff = ∅ then .ok none
    else if ((((eff ∩ P.disliked) \ (P.courseTags ∪ P.unitTags)).card : ℚ) /
        (eff.card : ℚ)) > P.dislikedThreshold then
      .ok none
    else if (P.courseTags ∪ P.unitTags).card = 0 then .ok none
    else if (((eff ∩ (P.courseTags ∪ P.unitTags)).card : ℚ) /
        (((P.courseTags ∪ P.unitTags)).card : ℚ)) < P.matchThreshold then
      .ok none
    else .ok (some (mkCandidate P q.1 q.2 eff))

/-- The scan loop over a list of streamed question documents; an exception
in any iteration propagates. -/
def scanList (db : DB) (P : Params) : List (String × QDoc) →
    Except Unit (List Candidate)
  | [] => .ok []
  | q :: rest =>
    match scanQuestion db P q with
    | .error e => .error e
    | .ok c? =>
      match scanList db P rest with
      | .error e => .error e
      | .ok cs =>
        match c? with
        | some c => .ok (c :: cs)
        | none => .ok cs

/-- `QuestionMatcher.find_relevant_questions` (lines 79–151). -/
def findRelevantQuestions (db : DB) (P : Params) : Except Unit (List Candidate) :=
  scanList db P db.questions

/-- One `(course, unit)` aggregate built on lines 153–169; the name fields
are filled in afterwards (lines 171–179). -/
structure Group where
  course_id : Option String
  unit_id : Option String
  questions : List String
  priority : ℚ
  total_score : ℕ
  course_name : String
  unit_name : String
deriving DecidableEq

/-- The fresh group dict of lines 159–165. -/
def emptyGroup (c : Candidate) : Group :=
  { course_id := c.course_id, unit_id := c.unit_id, questions := [],
    priority := 0, total_score := 0, course_name := "", unit_name := "" }

/-- Lines 167–169: append the candidate into its group. -/
def addToGroup (g : Group) (c : Candidate) : Group :=
  { g with
    questions := g.questions ++ [c.question_id],
    priority := g.priority + c.priority,
    total_score := g.total_score + c.score }

/-- Insert one candidate into the ordered group list, preserving the
first-encounter order of keys (Python dicts iterate in insertion order). -/
def upsert : List Group → Candidate → List Group
  | [], c => [addToGroup (emptyGroup c) c]
  | g :: gs, c =>
    if g.course_id = c.course_id ∧ g.unit_id = c.unit_id then
      addToGroup g c :: gs
    else g :: upsert gs c

/-- The grouping loop of lines 156–169. -/
def groupCandidates (cs : List Candidate) : List Group := cs.foldl upsert []

/-- Line 172–173: look up the group's course name, `""` if absent; a `None`
course id targets a fresh auto-generated id, which does not exist. -/
def resolveCourseName (db : DB) (cid : Option String) : Except Unit String :=
  match cid with
  | none => .ok ""
  | some c =>
    match db.courses c with
    | .error e => .error e
    | .ok none => .ok ""
    | .ok (some d) => .ok d.name

/-- Lines 175–179: look up the group's unit name when the unit id is
truthy, `""` otherwise. -/
def resolveUnitName (db : DB) (cid uid : Option String) : Except Unit String :=
  if pyTruthy uid then
    match cid, uid with
    | some c, some u =>
      match db.units c u with
      | .error e => .error e
      | .ok none => .ok ""
      | .ok (some d) => .ok d.name
    | _, _ => .ok ""
  else .ok ""

/-- One pass of the name-resolution loop body (lines 171–179). -/
def resolveNames (db : DB) (g : Group) : Except Unit Group :=
  match resolveCourseName db g.course_id with
  | .error e => .error e
  | .ok cn =>
    match resolveUnitName db g.course_id g.unit_id with
    | .error e => .error e
    | .ok un => .ok { g with course_name := cn, unit_name := un }

/-- The name-resolution loop over all groups. -/
def resolveAll (db : DB) : List Group → Except Unit (List Group)
  | [] => .ok []
  | g :: gs =>
    match resolveNames db g with
    | .error e => .error e
    | .ok g' =>
      match resolveAll db gs with
      | .error e => .error e
      | .ok gs' => .ok (g' :: gs')

/-- Strict order of the sort key `(-priority, -total_score)` of line 183:
`keyLT a b` means `a` must come strictly before `b`. -/
def keyLT (a b : Group) : Prop :=
  b.priority < a.priority ∨ (a.priority = b.priority ∧ b.total_score < a.total_score)

instance (a b : Group) : Decidable (keyLT a b) := by unfold keyLT; infer_instance

/-- Stable insertion of a group into an already sorted list: `a` goes after
every group strictly before it, hence after all earlier-encountered groups
with an equal key. -/
def insertG (a : Group) : List Group → List Group
  | [] => [a]
  | b :: bs => if keyLT b a then b :: insertG a bs else a :: b :: bs

/-- Line 181–184, `sorted(..., key=lambda g: (-priority, -total_score))`:
Python `sorted` is stable, modelled as a stable insertion sort. -/
def sortGroups : List Group → List Group
  | [] => []
  | g :: gs => insertG g (sortGroups gs)

/-- One element of the response list (lines 194–203). -/
structure GroupOut where
  course_id : Option String
  course_name : String
  unit_id : Option String
  unit_name : String
  questions : List String
deriving DecidableEq

/-- The projection of lines 195–201. -/
def toOut (g : Group) : GroupOut :=
  { course_id := g.course_id, course_name := g.course_name,
    unit_id := g.unit_id, unit_name := g.unit_name, questions := g.questions }

/-- `QuestionMatcher.group_and_rank` (lines 153–203), with the
`random.shuffle` of line 192 exposed as the `shuffle` argument. -/
def groupAndRank (db : DB) (matched : List Candidate) (top_k : ℕ)
    (shuffle : List Group → List Group) : Except Unit (List GroupOut) :=
  match resolveAll db (groupCandidates matched) with
  | .error e => .error e
  | .ok gs => .ok ((shuffle ((sortGroups gs).take top_k)).map toOut)

/-- `QuestionMatcher.get_question_tags` (lines 34–43): union of the
normalized tags of each fetched question, missing documents skipped. -/
def getQuestionTags (db : DB) : List String → Except Unit (Finset Word)
  | [] => .ok ∅
  | qid :: rest =>
    match db.questionById qid with
    | .error e => .error e
    | .ok none => getQuestionTags db rest
    | .ok (some q) =>
      match getQuestionTags db rest with
      | .error e => .error e
      | .ok ts => .ok (splitTags q.tags ∪ ts)

/-- The three outcomes of the `/find_similar_courses` route: 400, 404, or
the 200 payload. -/
inductive Response where
  | badRequest : Response
  | notFound : Response
  | ok : List GroupOut → Response
deriving DecidableEq

/-- The `/find_similar_courses` route handler (lines 207–256), with the
shuffle of `group_and_rank` exposed as an argument. -/
def findSimilarCourses (db : DB) (uid course_id unit_id : Option String)
    (useUnits : Bool) (top_k : ℕ) (shuffle : List Group → List Group) :
    Except Unit Response :=
  match uid, course_id with
  | some u, some c =>
    if u = "" ∨ c = "" then .ok .badRequest
    else
      match db.learning u c with
      | .error e => .error e
      | .ok none => .ok .notFound
      | .ok (some st) => do
        let liked ← getQuestionTags db st.likedQuestions
        let disliked ← getQuestionTags db st.dislikedQuestions
        let courseTags ← getCourseTags db (some c)
        let unitTags ←
          if useUnits && pyTruthy unit_id then getUnitTags db (some c) unit_id
          else .ok ∅
        let matched ← findRelevantQuestions db
          { liked := liked, disliked := disliked, courseTags := courseTags,
            unitTags := unitTags,
            answered := st.answeredQuestions.toFinset,
            subscribed := st.subscribedCourses.toFinset,
            matchThreshold := 1 / 2, dislikedThreshold := 2 / 5,
            refCourse := some c,
            refUnit := if useUnits then unit_id else none }
        let result ← groupAndRank db matched top_k shuffle
        .ok (.ok result)
  | _, _ => .ok .badRequest

/-! ### Normalization lemmas -/

lemma mem_splitTags {tags : List Word} {w : Word} :
    w ∈ splitTags tags ↔ ∃ t ∈ tags, w ∈ tagWords t := by
  simp [splitTags, List.mem_flatMap]

lemma mem_tagWords {t w : Word} :
    w ∈ tagWords t ↔ ∃ u ∈ splitWs (cleanTag t), normWord u = some w := by
  simp [tagWords, List.mem_filterMap]

lemma normWord_eq_some {u w : Word} (h : normWord u = some w) :
    u ∉ STOPWORDS ∧ pyStrip u ≠ [] ∧
      ((¬(endsInS u = true ∧ 3 < u.length) ∧ w = u) ∨
        (endsInS u = true ∧ 3 < u.length ∧ w = u.dropLast)) := by
  unfold normWord at h
  split at h
  · exact absurd h (by simp)
  · rename_i hcond
    push_neg at hcond
    refine ⟨hcond.1, hcond.2, ?_⟩
    by_cases hs : endsInS u = true ∧ 3 < u.length
    · right
      refine ⟨hs.1, hs.2, ?_⟩
      rw [if_pos hs] at h
      exact (Option.some.inj h).symm
    · left
      refine ⟨hs, ?_⟩
      rw [if_neg hs] at h
      exact (Option.some.inj h).symm

lemma isWordChar_not_space {c : Nat} (h : isWordChar c = true) :
    isSpaceChar c = false := by
  unfold isWordChar at h
  unfold isSpaceChar
  simp only [Bool.or_eq_true, Bool.and_eq_true, decide_eq_true_eq] at h
  simp only [Bool.or_eq_false_iff, decide_eq_false_iff_not]
  omega

lemma pyLowerChar_not_upper (a : Nat) :
    ¬(65 ≤ pyLowerChar a ∧ pyLowerChar a ≤ 90) := by
  unfold pyLowerChar
  split <;> omega

lemma dashSub_not_upper (a : Nat) :
    ¬(65 ≤ dashSub (pyLowerChar a) ∧ dashSub (pyLowerChar a) ≤ 90) := by
  unfold dashSub
  split
  · omega
  · exact pyLowerChar_not_upper a

lemma splitWsAux_sound (s : List Nat) :
    ∀ acc, (∀ c ∈ acc, isSpaceChar c = false) →
      ∀ w ∈ splitWsAux s acc, w ≠ [] ∧
        ∀ c ∈ w, isSpaceChar c = false ∧ (c ∈ s ∨ c ∈ acc) := by
  induction s with
  | nil =>
    intro acc hacc w hw
    unfold splitWsAux at hw
    split at hw
    · simp at hw
    · rename_i hne
      simp only [List.mem_singleton] at hw
      subst hw
      refine ⟨by simpa using hne, fun c hc => ?_⟩
      rw [List.mem_reverse] at hc
      exact ⟨hacc c hc, Or.inr hc⟩
  | cons c cs ih =>
    intro acc hacc w hw
    unfold splitWsAux at hw
    by_cases hsp : isSpaceChar c = true
    · rw [if_pos hsp] at hw
      by_cases hae : acc = []
      · rw [if_pos hae] at hw
        obtain ⟨hne, hcs⟩ := ih [] (by simp) w hw
        refine ⟨hne, fun d hd => ⟨(hcs d hd).1, Or.inl ?_⟩⟩
        rcases (hcs d hd).2 with h | h
        · exact List.mem_cons_of_mem _ h
        · simp at h
      · rw [if_neg hae] at hw
        rcases List.mem_cons.mp hw with rfl | hw'
        · refine ⟨by simpa using hae, fun d hd => ?_⟩
          rw [List.mem_reverse] at hd
          exact ⟨hacc d hd, Or.inr hd⟩
        · obtain ⟨hne, hcs⟩ := ih [] (by simp) w hw'
          refine ⟨hne, fun d hd => ⟨(hcs d hd).1, Or.inl ?_⟩⟩
          rcases (hcs d hd).2 with h | h
          · exact List.mem_cons_of_mem _ h
          · simp at h
    · rw [if_neg hsp] at hw
      have hprec : ∀ d ∈ c :: acc, isSpaceChar d = false := by
        intro d hd
        rcases List.mem_cons.mp hd with rfl | hd'
        · exact Bool.not_eq_true _ ▸ (by simpa using hsp)
        · exact hacc d hd'
      obtain ⟨hne, hcs⟩ := ih (c :: acc) hprec w hw
      refine ⟨hne, fun d hd => ⟨(hcs d hd).1, ?_⟩⟩
      rcases (hcs d hd).2 with h | h
      · exact Or.inl (List.mem_cons_of_mem _ h)
      · rcases List.mem_cons.mp h with rfl | h'
        · exact Or.inl (List.mem_cons_self _ _)
        · exact Or.inr h'

lemma splitWs_sound {s : List Nat} :
    ∀ w ∈ splitWs s, w ≠ [] ∧ ∀ c ∈ w, isSpaceChar c = false ∧ c ∈ s := by
  intro w hw
  obtain ⟨hne, hcs⟩ := splitWsAux_sound s [] (by simp) w hw
  refine ⟨hne, fun c hc => ⟨(hcs c hc).1, ?_⟩⟩
  rcases (hcs c hc).2 with h | h
  · exact h
  · simp at h

lemma cleanTag_chars {t : Word} :
    ∀ c ∈ cleanTag t,
      (isWordChar c = true ∨ isSpaceChar c = true) ∧ ¬(65 ≤ c ∧ c ≤ 90) := by
  intro c hc
  unfold cleanTag at hc
  rw [List.mem_filter] at hc
  obtain ⟨hmem, hpred⟩ := hc
  constructor
  · simpa [Bool.or_eq_true] using hpred
  · rw [List.mem_map] at hmem
    obtain ⟨b, hb, rfl⟩ := hmem
    rw [List.mem_map] at hb
    obtain ⟨a, _, rfl⟩ := hb
    exact dashSub_not_upper a

lemma splitTags_word_chars {tags : List Word} {w : Word}
    (hw : w ∈ splitTags tags) :
    w ≠ [] ∧ ∀ c ∈ w, isWordChar c = true ∧ ¬(65 ≤ c ∧ c ≤ 90) := by
  obtain ⟨t, _, hwt⟩ := mem_splitTags.mp hw
  obtain ⟨u, hu, hnw⟩ := mem_tagWords.mp hwt
  obtain ⟨hune, hchars⟩ := splitWs_sound u hu
  have hchar : ∀ c ∈ u, isWordChar c = true ∧ ¬(65 ≤ c ∧ c ≤ 90) := by
    intro c hc
    obtain ⟨hns, hmem⟩ := hchars c hc
    obtain ⟨hwc, hup⟩ := cleanTag_chars c hmem
    rcases hwc with h | h
    · exact ⟨h, hup⟩
    · rw [hns] at h
      exact absurd h (by simp)
  obtain ⟨_, _, hcase⟩ := normWord_eq_some hnw
  rcases hcase with ⟨_, rfl⟩ | ⟨_, hlen, rfl⟩
  · exact ⟨hune, hchar⟩
  · constructor
    · have := u.length_dropLast
      intro he
      rw [he] at this
      simp at this
      omega
    · intro c hc
      exact hchar c (List.dropLast_subset u hc)

lemma endsInS_decomp {u : Word} (h : endsInS u = true) : u = u.dropLast ++ [115] := by
  unfold endsInS at h
  have hne : u ≠ [] := by
    intro he
    rw [he] at h
    simp at h
  have hlast : u.getLast hne = 115 := by
    rw [List.getLast?_eq_getLast u hne] at h
    exact Option.some.inj (of_decide_eq_true h)
  conv_lhs => rw [← List.dropLast_append_getLast hne]
  rw [hlast]

lemma dropWhile_nospace {w : List Nat} (h : ∀ c ∈ w, isSpaceChar c = false) :
    (w.dropWhile fun c => isSpaceChar c) = w := by
  cases w with
  | nil => rfl
  | cons c cs =>
    rw [List.dropWhile_cons]
    simp [h c (List.mem_cons_self _ _)]

lemma pyStrip_id {w : Word} (h : ∀ c ∈ w, isSpaceChar c = false) :
    pyStrip w = w := by
  unfold pyStrip
  rw [dropWhile_nospace h, dropWhile_nospace, List.reverse_reverse]
  intro c hc
  exact h c (List.mem_reverse.mp hc)

lemma pyLowerChar_id {c : Nat} (h : ¬(65 ≤ c ∧ c ≤ 90)) : pyLowerChar c = c :=
  if_neg h

lemma dashSub_id {c : Nat} (h : isWordChar c = true) : dashSub c = c := by
  unfold isWordChar at h
  simp only [Bool.or_eq_true, Bool.and_eq_true, decide_eq_true_eq] at h
  unfold dashSub
  rw [if_neg]
  omega

lemma cleanTag_id {w : Word}
    (h : ∀ c ∈ w, isWordChar c = true ∧ ¬(65 ≤ c ∧ c ≤ 90)) : cleanTag w = w := by
  unfold cleanTag
  have h1 : w.map pyLowerChar = w.map id :=
    List.map_congr_left fun c hc => pyLowerChar_id (h c hc).2
  rw [h1, List.map_id]
  have h2 : w.map dashSub = w.map id :=
    List.map_congr_left fun c hc => dashSub_id (h c hc).1
  rw [h2, List.map_id]
  rw [List.filter_eq_self]
  intro c hc
  simp [(h c hc).1]

lemma splitWsAux_nosp (s : List Nat) :
    ∀ acc, (∀ c ∈ s, isSpaceChar c = false) → (acc = [] → s ≠ []) →
      splitWsAux s acc = [acc.reverse ++ s] := by
  induction s with
  | nil =>
    intro acc _ hne
    have : acc ≠ [] := fun h => hne h rfl
    unfold splitWsAux
    rw [if_neg this, List.append_nil]
  | cons c cs ih =>
    intro acc hns _
    unfold splitWsAux
    rw [if_neg]
    · rw [ih (c :: acc) (fun d hd => hns d (List.mem_cons_of_mem _ hd))
        (by simp)]
      simp
    · simp [hns c (List.mem_cons_self _ _)]

lemma splitWs_single {w : Word} (hne : w ≠ [])
    (hns : ∀ c ∈ w, isSpaceChar c = false) : splitWs w = [w] := by
  unfold splitWs
  rw [splitWsAux_nosp w [] hns (fun _ => hne)]
  simp

lemma tagWords_single {w : Word} (hne : w ≠ [])
    (hch : ∀ c ∈ w, isWordChar c = true ∧ ¬(65 ≤ c ∧ c ≤ 90))
    (hstop : w ∉ STOPWORDS) :
    tagWords w = [if endsInS w = true ∧ 3 < w.length then w.dropLast else w] := by
  have hns : ∀ c ∈ w, isSpaceChar c = false :=
    fun c hc => isWordChar_not_space (hch c hc).1
  unfold tagWords
  rw [cleanTag_id hch, splitWs_single hne hns]
  have hnw : normWord w =
      some (if endsInS w = true ∧ 3 < w.length then w.dropLast else w) := by
    unfold normWord
    rw [if_neg]
    push_neg
    exact ⟨hstop, by rw [pyStrip_id hns]; exact hne⟩
  simp [List.filterMap, hnw]

lemma flatMap_tagWords_id :
    ∀ L : List Word, (∀ w ∈ L, tagWords w = [w]) → L.flatMap tagWords = L := by
  intro L hL
  induction L with
  | nil => rfl
  | cons a l ih =>
    rw [List.flatMap_cons, hL a (List.mem_cons_self _ _),
      ih (fun w hw => hL w (List.mem_cons_of_mem _ hw))]
    rfl

/-! ### Claim C5 -/

/-- C5 counterexample: `split_tags(["thes"])` singularizes `"thes"` to the
stopword `"the"`, so the output is not disjoint from the stopword list. -/
theorem splitTags_emits_stopword :
    pyStr "the" ∈ splitTags [pyStr "thes"] ∧ pyStr "the" ∈ STOPWORDS := by
  decide

/-- C5 amended: the stopword filter runs before singularization, so a
stopword can reach the output only as the stripped form of a longer
non-stopword; hence every stopword in the output has length at least 3 and
its `s`-extension is not itself a stopword. -/
theorem stopword_in_splitTags_from_singularization :
    ∀ (tags : List Word) (w : Word), w ∈ splitTags tags → w ∈ STOPWORDS →
      3 ≤ w.length ∧ w ++ [115] ∉ STOPWORDS := by
  intro tags w hw hstop
  obtain ⟨t, _, hwt⟩ := mem_splitTags.mp hw
  obtain ⟨u, _, hnw⟩ := mem_tagWords.mp hwt
  obtain ⟨hustop, _, hcase⟩ := normWord_eq_some hnw
  rcases hcase with ⟨_, rfl⟩ | ⟨hends, hlen, rfl⟩
  · exact absurd hstop hustop
  · have hu := endsInS_decomp hends
    constructor
    · have := u.length_dropLast
      omega
    · rw [← hu]
      exact hustop

/-- C5 witness: the amended statement instantiated at `tags = ["thes"]`,
`w = "the"`. -/
theorem stopword_in_splitTags_from_singularization_witness :
    3 ≤ (pyStr "the").length ∧ pyStr "the" ++ [115] ∉ STOPWORDS :=
  stopword_in_splitTags_from_singularization [pyStr "thes"] (pyStr "the")
    (by decide) (by decide)

/-! ### Claim C6 -/

/-- C6 counterexample: normalization is not idempotent. `["thes"]`
normalizes to `{"the"}`, but re-feeding the word `"the"` yields `∅`,
because the singularized form is a stopword. -/
theorem splitTags_not_idempotent :
    splitTags [pyStr "thes"] = {pyStr "the"} ∧
      splitTags [pyStr "the"] ≠ {pyStr "the"} := by
  decide

/-- C6 amended: re-normalizing the output words is the identity provided no
output word is a stopword and no output word of length above 3 still ends
in `s` (both can arise from singularization, e.g. `"thes" → "the"` and
`"princess" → "princes"`). -/
theorem splitTags_idempotent_of_clean :
    ∀ (tags L : List Word),
      (∀ w ∈ splitTags tags,
        w ∉ STOPWORDS ∧ ¬(endsInS w = true ∧ 3 < w.length)) →
      L.toFinset = splitTags tags →
      splitTags L = splitTags tags := by
  intro tags L hclean hL
  have hw : ∀ w ∈ L, tagWords w = [w] := by
    intro w hwL
    have hmem : w ∈ splitTags tags := hL ▸ List.mem_toFinset.mpr hwL
    obtain ⟨hne, hch⟩ := splitTags_word_chars hmem
    obtain ⟨hstop, hnostrip⟩ := hclean w hmem
    rw [tagWords_single hne hch hstop, if_neg hnostrip]
  rw [splitTags, flatMap_tagWords_id L hw, hL]

/-- C6 witness: the amended statement at `tags = ["linear-algebra"]`,
re-fed as the two words `["algebra", "linear"]`. -/
theorem splitTags_idempotent_of_clean_witness :
    splitTags [pyStr "algebra", pyStr "linear"] =
      splitTags [pyStr "linear-algebra"] :=
  splitTags_idempotent_of_clean [pyStr "linear-algebra"]
    [pyStr "algebra", pyStr "linear"] (by decide) (by decide)

/-! ### Claim C7 -/

/-- C7 counterexample: `"gas"` has length 3, which is not greater than 3,
so `split_tags(["gas"])` keeps `"gas"`; the claimed result `{"ga"}` is
wrong. -/
theorem splitTags_gas_not_ga : splitTags [pyStr "gas"] ≠ {pyStr "ga"} := by
  decide

/-- C7 amended: singularization applies exactly to words of length greater
than 3 ending in `s`; consequently `normalize(["cats"]) = {"cat"}`,
`normalize(["gas"]) = {"gas"}` (length 3 is not singularized), and
`normalize(["as"]) = ∅` (stopword). -/
theorem singularization_rule :
    (∀ w : Word, w ≠ [] →
      (∀ c ∈ w, isWordChar c = true ∧ ¬(65 ≤ c ∧ c ≤ 90)) →
      w ∉ STOPWORDS →
      splitTags [w] =
        {if endsInS w = true ∧ 3 < w.length then w.dropLast else w}) ∧
    splitTags [pyStr "cats"] = {pyStr "cat"} ∧
    splitTags [pyStr "gas"] = {pyStr "gas"} ∧
    splitTags [pyStr "as"] = ∅ := by
  refine ⟨fun w hne hch hstop => ?_, by decide, by decide, by decide⟩
  rw [splitTags, List.flatMap_cons, List.flatMap_nil,
    tagWords_single hne hch hstop, List.append_nil]
  rfl

/-- C7 witness: the general rule instantiated at `w = "cats"`. -/
theorem singularization_rule_witness :
    splitTags [pyStr "cats"] =
      {if endsInS (pyStr "cats") = true ∧ 3 < (pyStr "cats").length
        then (pyStr "cats").dropLast else pyStr "cats"} :=
  singularization_rule.1 (pyStr "cats") (by decide) (by decide) (by decide)

/-! ### Scan lemmas -/

lemma scanList_mem (db : DB) (P : Params) :
    ∀ (qs : List (String × QDoc)) (cs : List Candidate),
      scanList db P qs = .ok cs →
      ∀ c : Candidate,
        c ∈ cs ↔ ∃ q ∈ qs, scanQuestion db P q = .ok (some c) := by
  intro qs
  induction qs with
  | nil =>
    intro cs h c
    unfold scanList at h
    injection h with h
    subst h
    simp
  | cons q rest ih =>
    intro cs h c
    unfold scanList at h
    cases hq : scanQuestion db P q with
    | error e => rw [hq] at h; exact absurd h (by simp)
    | ok c? =>
      rw [hq] at h
      cases hr : scanList db P rest with
      | error e => rw [hr] at h; exact absurd h (by simp)
      | ok cs' =>
        rw [hr] at h
        cases c? with
        | some c0 =>
          injection h with h
          subst h
          constructor
          · intro hc
            rcases List.mem_cons.mp hc with rfl | hc'
            · exact ⟨q, List.mem_cons_self _ _, hq⟩
            · obtain ⟨q', hq', hsc⟩ := (ih cs' hr c).mp hc'
              exact ⟨q', List.mem_cons_of_mem _ hq', hsc⟩
          · rintro ⟨q', hq'mem, hsc⟩
            rcases List.mem_cons.mp hq'mem with rfl | h'
            · rw [hq] at hsc
              have h1 := Option.some.inj (Except.ok.inj hsc)
              rw [← h1]
              exact List.mem_cons_self _ _
            · exact List.mem_cons_of_mem _ ((ih cs' hr c).mpr ⟨q', h', hsc⟩)
        | none =>
          injection h with h
          subst h
          constructor
          · intro hc
            obtain ⟨q', hq', hsc⟩ := (ih cs' hr c).mp hc
            exact ⟨q', List.mem_cons_of_mem _ hq', hsc⟩
          · rintro ⟨q', hq'mem, hsc⟩
            rcases List.mem_cons.mp hq'mem with rfl | h'
            · rw [hq] at hsc
              exact absurd (Except.ok.inj hsc) (by simp)
            · exact (ih cs' hr c).mpr ⟨q', h', hsc⟩

lemma scanQuestion_ok_some {db : DB} {P : Params} {qid : String} {qdoc : QDoc}
    {c : Candidate} (h : scanQuestion db P (qid, qdoc) = .ok (some c)) :
    ∃ eff : Finset Word,
      getEffectiveTags db qdoc = .ok eff ∧ eff ≠ ∅ ∧
      (P.courseTags ∪ P.unitTags).card ≠ 0 ∧
      ¬((((eff ∩ P.disliked) \ (P.courseTags ∪ P.unitTags)).card : ℚ) /
          (eff.card : ℚ) > P.dislikedThreshold) ∧
      ¬((((eff ∩ (P.courseTags ∪ P.unitTags)).card : ℚ) /
          (((P.courseTags ∪ P.unitTags)).card : ℚ)) < P.matchThreshold) ∧
      c = mkCandidate P qid qdoc eff := by
  unfold scanQuestion at h
  cases he : getEffectiveTags db qdoc with
  | error e => rw [he] at h; exact absurd h (by simp)
  | ok eff =>
    rw [he] at h
    dsimp only at h
    refine ⟨eff, rfl, ?_⟩
    split_ifs at h with h1 h2 h3 h4
    · exact absurd (Except.ok.inj h) (by simp)
    · exact absurd (Except.ok.inj h) (by simp)
    · exact absurd (Except.ok.inj h) (by simp)
    · exact absurd (Except.ok.inj h) (by simp)
    · exact ⟨h1, h3, h2, h4, (Option.some.inj (Except.ok.inj h)).symm⟩

lemma scanQuestion_emits {db : DB} {P : Params} {qid : String} {qdoc : QDoc}
    {eff : Finset Word} (he : getEffectiveTags db qdoc = .ok eff)
    (hne : eff ≠ ∅)
    (hd : (((eff ∩ P.disliked) \ (P.courseTags ∪ P.unitTags)).card : ℚ) /
      (eff.card : ℚ) ≤ P.dislikedThreshold)
    (hcur : (P.courseTags ∪ P.unitTags).card ≠ 0)
    (hm : P.matchThreshold ≤
      (((eff ∩ (P.courseTags ∪ P.unitTags)).card : ℚ) /
        (((P.courseTags ∪ P.unitTags)).card : ℚ))) :
    scanQuestion db P (qid, qdoc) = .ok (some (mkCandidate P qid qdoc eff)) := by
  unfold scanQuestion
  rw [he]
  dsimp only
  rw [if_neg hne, if_neg (not_lt.mpr hd), if_neg hcur, if_neg (not_lt.mpr hm)]

lemma scanQuestion_question_id {db : DB} {P : Params} {q : String × QDoc}
    {c : Candidate} (h : scanQuestion db P q = .ok (some c)) :
    c.question_id = q.1 := by
  obtain ⟨qid, qdoc⟩ := q
  obtain ⟨eff, _, _, _, _, _, rfl⟩ := scanQuestion_ok_some h
  rfl

lemma nodup_keys_eq :
    ∀ (l : List (String × QDoc)), (l.map Prod.fst).Nodup →
      ∀ {k : String} {a b : QDoc}, (k, a) ∈ l → (k, b) ∈ l → a = b := by
  intro l
  induction l with
  | nil => intro _ k a b ha _; simp at ha
  | cons p rest ih =>
    intro hnd k a b ha hb
    rw [List.map_cons, List.nodup_cons] at hnd
    rcases List.mem_cons.mp ha with ha' | ha' <;>
      rcases List.mem_cons.mp hb with hb' | hb'
    · exact congrArg Prod.snd (ha'.trans hb'.symm)
    · exfalso
      apply hnd.1
      rw [← ha']
      simpa using List.mem_map_of_mem Prod.fst hb'
    · exfalso
      apply hnd.1
      rw [← hb']
      simpa using List.mem_map_of_mem Prod.fst ha'
    · exact ih hnd.2 ha' hb'

/-! ### Bounds on rounding and boosts -/

lemma rhe_nonneg {x : ℚ} (h : 0 ≤ x) : 0 ≤ rhe x := by
  have hfl : (0 : ℤ) ≤ ⌊x⌋ := Int.floor_nonneg.mpr h
  unfold rhe
  split_ifs <;> omega

lemma rhe_le_of_le {x : ℚ} {n : ℤ} (h : x ≤ n) : rhe x ≤ n := by
  have hfl : ⌊x⌋ ≤ n := by
    have h2 := Int.floor_mono h
    rwa [Int.floor_intCast] at h2
  have key : 1 / 2 ≤ x - ⌊x⌋ → ⌊x⌋ + 1 ≤ n := by
    intro hh
    by_contra hc
    push_neg at hc
    have hn : ⌊x⌋ = n := by omega
    have hx : ((n : ℚ)) + 1 / 2 ≤ x := by
      have h3 : ((⌊x⌋ : ℚ)) + 1 / 2 ≤ x := by linarith
      rwa [hn] at h3
    linarith
  unfold rhe
  split_ifs with h1 h2 h3
  · exact hfl
  · exact key (le_of_lt h2)
  · exact hfl
  · exact key (not_lt.mp h1)

lemma round2_nonneg {x : ℚ} (h : 0 ≤ x) : 0 ≤ round2 x := by
  unfold round2
  have h1 : (0 : ℤ) ≤ rhe (x * 100) := rhe_nonneg (by linarith)
  have h2 : (0 : ℚ) ≤ (rhe (x * 100) : ℚ) := by exact_mod_cast h1
  linarith

lemma round2_le_two {x : ℚ} (h : x ≤ 2) : round2 x ≤ 2 := by
  unfold round2
  have h1 : rhe (x * 100) ≤ (200 : ℤ) := rhe_le_of_le (by push_cast; linarith)
  have h2 : ((rhe (x * 100) : ℤ) : ℚ) ≤ 200 := by exact_mod_cast h1
  linarith

lemma subscribedBoost_bounds (s : Finset String) (c : Option String) :
    0 ≤ subscribedBoost s c ∧ subscribedBoost s c ≤ 1 := by
  unfold subscribedBoost
  cases c with
  | none => norm_num
  | some x =>
    dsimp only
    split_ifs <;> norm_num

lemma sameCourseBoost_bounds (r : Option String) (c : Option String) :
    0 ≤ sameCourseBoost r c ∧ sameCourseBoost r c ≤ 1 := by
  unfold sameCourseBoost
  split_ifs <;> norm_num

lemma sameUnitBoost_bounds (r : Option String) (u : Option String) :
    0 ≤ sameUnitBoost r u ∧ sameUnitBoost r u ≤ 1 := by
  unfold sameUnitBoost
  split_ifs <;> norm_num

lemma answeredPenalty_bounds (a : Finset String) (q : String) :
    -1 ≤ answeredPenalty a q ∧ answeredPenalty a q ≤ 0 := by
  unfold answeredPenalty
  split_ifs <;> norm_num

lemma likedRatio_bounds {eff liked : Finset Word} (h : eff ≠ ∅) :
    0 ≤ ((eff ∩ liked).card : ℚ) / (eff.card : ℚ) * 2 ∧
      ((eff ∩ liked).card : ℚ) / (eff.card : ℚ) * 2 ≤ 2 := by
  have hpos : 0 < (eff.card : ℚ) := by
    exact_mod_cast Finset.card_pos.mpr (Finset.nonempty_iff_ne_empty.mpr h)
  constructor
  · positivity
  · have hle : ((eff ∩ liked).card : ℚ) ≤ (eff.card : ℚ) := by
      exact_mod_cast Finset.card_le_card Finset.inter_subset_left
    rw [div_mul_eq_mul_div, div_le_iff₀ hpos]
    linarith

/-! ### Claim C1 -/

/-- C1: every candidate emitted by `find_relevant_questions` carries
`score = |effective ∩ likedTags|` and
`priority = round(likedRatio * 2, 2) + subscribedBoost + sameCourseBoost +
sameUnitBoost + answeredPenalty`, with each boost as the code defines it. -/
theorem candidate_priority_formula :
    ∀ (db : DB) (P : Params) (cs : List Candidate) (c : Candidate),
      findRelevantQuestions db P = .ok cs → c ∈ cs →
      ∃ (qid : String) (qdoc : QDoc) (eff : Finset Word),
        (qid, qdoc) ∈ db.questions ∧ c.question_id = qid ∧
        getEffectiveTags db qdoc = .ok eff ∧
        c.score = (eff ∩ P.liked).card ∧
        c.priority =
          round2 (((eff ∩ P.liked).card : ℚ) / (eff.card : ℚ) * 2) +
          (match qdoc.course with
            | some x => if x ∈ P.subscribed then (1 : ℚ) else 0
            | none => 0) +
          (if qdoc.course = P.refCourse then (1 : ℚ) else 0) +
          (if pyTruthy P.refUnit = true ∧ qdoc.unit = P.refUnit
            then (1 : ℚ) else 0) +
          (if c.question_id ∈ P.answered then (-1 : ℚ) else 0) := by
  intro db P cs c hrun hc
  obtain ⟨q, hqmem, hscan⟩ := (scanList_mem db P db.questions cs hrun c).mp hc
  obtain ⟨qid, qdoc⟩ := q
  obtain ⟨eff, he, _, _, _, _, hcand⟩ := scanQuestion_ok_some hscan
  subst hcand
  exact ⟨qid, qdoc, eff, hqmem, rfl, he, rfl, rfl⟩

/-! ### Claim C2 -/

/-- C2: a scanned question with non-empty effective and curriculum tag sets
is emitted if and only if its dislike ratio is at most the disliked
threshold (rejection is strict `>`) and its match ratio is at least the
match threshold (rejection is strict `<`). -/
theorem question_emitted_iff_thresholds :
    ∀ (db : DB) (P : Params) (cs : List Candidate) (qid : String)
      (qdoc : QDoc) (eff : Finset Word),
      (db.questions.map Prod.fst).Nodup →
      findRelevantQuestions db P = .ok cs →
      (qid, qdoc) ∈ db.questions →
      getEffectiveTags db qdoc = .ok eff →
      eff ≠ ∅ →
      P.courseTags ∪ P.unitTags ≠ ∅ →
      ((∃ c ∈ cs, c.question_id = qid) ↔
        ((((eff ∩ P.disliked) \ (P.courseTags ∪ P.unitTags)).card : ℚ) /
            (eff.card : ℚ) ≤ P.dislikedThreshold ∧
          P.matchThreshold ≤
            (((eff ∩ (P.courseTags ∪ P.unitTags)).card : ℚ) /
              (((P.courseTags ∪ P.unitTags)).card : ℚ)))) := by
  intro db P cs qid qdoc eff hnd hrun hmem he hne hcur
  have hcard : (P.courseTags ∪ P.unitTags).card ≠ 0 :=
    fun hz => hcur (Finset.card_eq_zero.mp hz)
  constructor
  · rintro ⟨c, hc, hqid⟩
    obtain ⟨q', hq'mem, hscan⟩ := (scanList_mem db P db.questions cs hrun c).mp hc
    have hq1 : c.question_id = q'.1 := scanQuestion_question_id hscan
    obtain ⟨qid', qdoc'⟩ := q'
    have hqq : qid' = qid := by rw [← hqid, hq1]
    subst hqq
    have hdoc : qdoc' = qdoc := nodup_keys_eq db.questions hnd hq'mem hmem
    subst hdoc
    obtain ⟨eff', he', _, _, hd, hm, _⟩ := scanQuestion_ok_some hscan
    have heq : eff' = eff := by
      rw [he] at he'
      exact (Except.ok.inj he').symm
    subst heq
    exact ⟨not_lt.mp hd, not_lt.mp hm⟩
  · rintro ⟨hd, hm⟩
    have hscan := @scanQuestion_emits db P qid qdoc eff he hne hd hcard hm
    refine ⟨mkCandidate P qid qdoc eff, ?_, rfl⟩
    exact (scanList_mem db P db.questions cs hrun _).mpr ⟨(qid, qdoc), hmem, hscan⟩

/-! ### Claim C10 -/

/-- C10: every emitted candidate has a liked boost in `[0, 2]`, a score at
most the size of its effective tag set, and a priority in `[-1, 5]`. -/
theorem candidate_bounds :
    ∀ (db : DB) (P : Params) (cs : List Candidate) (c : Candidate),
      findRelevantQuestions db P = .ok cs → c ∈ cs →
      ∃ (qid : String) (qdoc : QDoc) (eff : Finset Word),
        (qid, qdoc) ∈ db.questions ∧ getEffectiveTags db qdoc = .ok eff ∧
        0 ≤ round2 (((eff ∩ P.liked).card : ℚ) / (eff.card : ℚ) * 2) ∧
        round2 (((eff ∩ P.liked).card : ℚ) / (eff.card : ℚ) * 2) ≤ 2 ∧
        c.score ≤ eff.card ∧
        -1 ≤ c.priority ∧ c.priority ≤ 5 := by
  intro db P cs c hrun hc
  obtain ⟨q, hqmem, hscan⟩ := (scanList_mem db P db.questions cs hrun c).mp hc
  obtain ⟨qid, qdoc⟩ := q
  obtain ⟨eff, he, hne, _, _, _, hcand⟩ := scanQuestion_ok_some hscan
  obtain ⟨hr0, hr2⟩ := @likedRatio_bounds eff P.liked hne
  have hb0 := round2_nonneg hr0
  have hb2 := round2_le_two hr2
  have hsb := subscribedBoost_bounds P.subscribed qdoc.course
  have hcb := sameCourseBoost_bounds P.refCourse qdoc.course
  have hub := sameUnitBoost_bounds P.refUnit qdoc.unit
  have hap := answeredPenalty_bounds P.answered qid
  have hscore : c.score = (eff ∩ P.liked).card := by rw [hcand]; rfl
  have hpri : c.priority =
      round2 (((eff ∩ P.liked).card : ℚ) / (eff.card : ℚ) * 2) +
        subscribedBoost P.subscribed qdoc.course +
        sameCourseBoost P.refCourse qdoc.course +
        sameUnitBoost P.refUnit qdoc.unit +
        answeredPenalty P.answered qid := by
    rw [hcand]; rfl
  refine ⟨qid, qdoc, eff, hqmem, he, hb0, hb2, ?_, ?_, ?_⟩
  · rw [hscore]
    exact Finset.card_le_card Finset.inter_subset_left
  · rw [hpri]; linarith [hsb.1, hcb.1, hub.1, hap.1]
  · rw [hpri]; linarith [hsb.2, hcb.2, hub.2, hap.2]

/-! ### Concrete data for the witnesses -/

/-- An example course document. -/
def exCourse : CourseDoc := { name := "Algebra", tags := [pyStr "algebra", pyStr "math"] }

/-- An example question in course `c1`. -/
def exQ1 : QDoc :=
  { tags := [pyStr "Algebra Basics"], course := some "c1", unit := none,
    course_name := "Algebra", unit_name := "" }

/-- An example store with one question and one course. -/
def exDB : DB :=
  { questions := [("q1", exQ1)],
    courses := fun c => if c = "c1" then .ok (some exCourse) else .ok none,
    units := fun _ _ => .ok none,
    questionById := fun _ => .ok none,
    learning := fun _ _ => .ok none }

/-- Example scoring parameters: the user likes `algebra`, the reference
course is `c1`. -/
def exP : Params :=
  { liked := {pyStr "algebra"}, disliked := ∅,
    courseTags := {pyStr "algebra", pyStr "math"}, unitTags := ∅,
    answered := ∅, subscribed := ∅,
    matchThreshold := 1 / 2, dislikedThreshold := 2 / 5,
    refCourse := some "c1", refUnit := none }

/-- The effective tag set of `exQ1` in `exDB`. -/
def effEx : Finset Word := {pyStr "algebra", pyStr "basic", pyStr "math"}

/-- The candidate produced for `exQ1`: overlap 1 of 3 effective tags gives
`likedBoost = round(2/3, 2) = 0.67`, plus the same-course boost 1. -/
def exCand : Candidate :=
  { course_id := some "c1", course_name := "Algebra", unit_id := none,
    unit_name := "", question_id := "q1", score := 1, priority := 167 / 100 }

lemma exDB_eff : getEffectiveTags exDB exQ1 = .ok effEx := by decide

lemma exDB_scan : scanQuestion exDB exP ("q1", exQ1) = .ok (some exCand) := by
  unfold scanQuestion
  rw [exDB_eff]
  dsimp only
  have h2 : ((effEx ∩ exP.disliked) \ (exP.courseTags ∪ exP.unitTags)).card = 0 := by decide
  have h3 : (exP.courseTags ∪ exP.unitTags).card = 2 := by decide
  have h4 : (effEx ∩ (exP.courseTags ∪ exP.unitTags)).card = 2 := by decide
  have h5 : effEx.card = 3 := by decide
  have h6 : (effEx ∩ exP.liked).card = 1 := by decide
  have hdt : exP.dislikedThreshold = 2 / 5 := rfl
  have hmt : exP.matchThreshold = 1 / 2 := rfl
  rw [if_neg (by decide : ¬(effEx = ∅)), h2, h5, hdt,
    if_neg (by norm_num : ¬(((0 : ℕ) : ℚ) / ((3 : ℕ) : ℚ) > 2 / 5)),
    h3, if_neg (by norm_num : ¬(2 = 0)), h4, hmt,
    if_neg (by norm_num : ¬(((2 : ℕ) : ℚ) / ((2 : ℕ) : ℚ) < 1 / 2))]
  unfold mkCandidate
  dsimp only
  rw [h6, h5]
  simp only [exQ1, exCand, Except.ok.injEq, Option.some.injEq,
    Candidate.mk.injEq, true_and, and_true]
  have hb : round2 (((1 : ℕ) : ℚ) / ((3 : ℕ) : ℚ) * 2) = 67 / 100 := by
    norm_num [round2, rhe]
  rw [hb]
  norm_num [subscribedBoost, sameCourseBoost, sameUnitBoost, answeredPenalty,
    exP, pyTruthy]

lemma exDB_run : findRelevantQuestions exDB exP = .ok [exCand] := by
  unfold findRelevantQuestions
  show scanList exDB exP [("q1", exQ1)] = _
  unfold scanList
  rw [exDB_scan]
  rfl

/-- C1 witness: the formula instantiated on the one-question store. -/
theorem candidate_priority_formula_witness :
    ∃ (qid : String) (qdoc : QDoc) (eff : Finset Word),
      (qid, qdoc) ∈ exDB.questions ∧ exCand.question_id = qid ∧
      getEffectiveTags exDB qdoc = .ok eff ∧
      exCand.score = (eff ∩ exP.liked).card ∧
      exCand.priority =
        round2 (((eff ∩ exP.liked).card : ℚ) / (eff.card : ℚ) * 2) +
        (match qdoc.course with
          | some x => if x ∈ exP.subscribed then (1 : ℚ) else 0
          | none => 0) +
        (if qdoc.course = exP.refCourse then (1 : ℚ) else 0) +
        (if pyTruthy exP.refUnit = true ∧ qdoc.unit = exP.refUnit
          then (1 : ℚ) else 0) +
        (if exCand.question_id ∈ exP.answered then (-1 : ℚ) else 0) :=
  candidate_priority_formula exDB exP [exCand] exCand exDB_run
    (List.mem_singleton.mpr rfl)

/-- A question sitting exactly on both thresholds: five effective tags, two
of them disliked and outside the curriculum (`dislikeRatio = 2/5`), one of
the two curriculum tags matched (`matchRatio = 1/2`). -/
def bdQ : QDoc :=
  { tags := [pyStr "aa bb cc dd ee"], course := none, unit := none,
    course_name := "", unit_name := "" }

/-- A store holding only the boundary question. -/
def bdDB : DB :=
  { questions := [("q1", bdQ)],
    courses := fun _ => .ok none,
    units := fun _ _ => .ok none,
    questionById := fun _ => .ok none,
    learning := fun _ _ => .ok none }

/-- Parameters putting `bdQ` exactly on the default thresholds. -/
def bdP : Params :=
  { liked := ∅, disliked := {pyStr "aa", pyStr "bb"},
    courseTags := {pyStr "cc", pyStr "ff"}, unitTags := ∅,
    answered := ∅, subscribed := ∅,
    matchThreshold := 1 / 2, dislikedThreshold := 2 / 5,
    refCourse := none, refUnit := none }

/-- The effective tag set of `bdQ` in `bdDB`. -/
def bdEff : Finset Word :=
  {pyStr "aa", pyStr "bb", pyStr "cc", pyStr "dd", pyStr "ee"}

/-- The candidate emitted for the boundary question: no liked overlap, and
`None == None` makes the same-course boost fire. -/
def bdCand : Candidate :=
  { course_id := none, course_name := "", unit_id := none, unit_name := "",
    question_id := "q1", score := 0, priority := 1 }

lemma bdDB_eff : getEffectiveTags bdDB bdQ = .ok bdEff := by decide

lemma bd_scan_any {db : DB} (he : getEffectiveTags db bdQ = .ok bdEff) :
    scanQuestion db bdP ("q1", bdQ) = .ok (some bdCand) := by
  have h2 : ((bdEff ∩ bdP.disliked) \ (bdP.courseTags ∪ bdP.unitTags)).card = 2 := by
    decide
  have h3 : (bdP.courseTags ∪ bdP.unitTags).card = 2 := by decide
  have h4 : (bdEff ∩ (bdP.courseTags ∪ bdP.unitTags)).card = 1 := by decide
  have h5 : bdEff.card = 5 := by decide
  have h6 : (bdEff ∩ bdP.liked).card = 0 := by decide
  have hdt : bdP.dislikedThreshold = 2 / 5 := rfl
  have hmt : bdP.matchThreshold = 1 / 2 := rfl
  unfold scanQuestion
  rw [he]
  dsimp only
  rw [if_neg (by decide : ¬(bdEff = ∅)), h2, h5, hdt,
    if_neg (by norm_num : ¬(((2 : ℕ) : ℚ) / ((5 : ℕ) : ℚ) > 2 / 5)),
    h3, if_neg (by norm_num : ¬(2 = 0)), h4, hmt,
    if_neg (by norm_num : ¬(((1 : ℕ) : ℚ) / ((2 : ℕ) : ℚ) < 1 / 2))]
  unfold mkCandidate
  dsimp only
  rw [h6, h5]
  simp only [bdQ, bdCand, Except.ok.injEq, Option.some.injEq,
    Candidate.mk.injEq, true_and, and_true]
  have hb : round2 (((0 : ℕ) : ℚ) / ((5 : ℕ) : ℚ) * 2) = 0 := by
    norm_num [round2, rhe]
  rw [hb]
  norm_num [subscribedBoost, sameCourseBoost, sameUnitBoost, answeredPenalty,
    bdP, pyTruthy]

lemma bdDB_run : findRelevantQuestions bdDB bdP = .ok [bdCand] := by
  unfold findRelevantQuestions
  show scanList bdDB bdP [("q1", bdQ)] = _
  unfold scanList
  rw [bd_scan_any bdDB_eff]
  rfl

/-- C2 witness: the boundary question, with its dislike ratio exactly at
the disliked threshold and its match ratio exactly at the match threshold,
is emitted. -/
theorem question_emitted_iff_thresholds_witness :
    (∃ c ∈ [bdCand], c.question_id = "q1") ↔
      ((((bdEff ∩ bdP.disliked) \ (bdP.courseTags ∪ bdP.unitTags)).card : ℚ) /
          (bdEff.card : ℚ) ≤ bdP.dislikedThreshold ∧
        bdP.matchThreshold ≤
          (((bdEff ∩ (bdP.courseTags ∪ bdP.unitTags)).card : ℚ) /
            (((bdP.courseTags ∪ bdP.unitTags)).card : ℚ))) :=
  question_emitted_iff_thresholds bdDB bdP [bdCand] "q1" bdQ bdEff
    (by decide) bdDB_run (List.mem_singleton.mpr rfl) bdDB_eff (by decide)
    (by decide)

/-- C10 witness: the bounds instantiated on the one-question store. -/
theorem candidate_bounds_witness :
    ∃ (qid : String) (qdoc : QDoc) (eff : Finset Word),
      (qid, qdoc) ∈ exDB.questions ∧ getEffectiveTags exDB qdoc = .ok eff ∧
      0 ≤ round2 (((eff ∩ exP.liked).card : ℚ) / (eff.card : ℚ) * 2) ∧
      round2 (((eff ∩ exP.liked).card : ℚ) / (eff.card : ℚ) * 2) ≤ 2 ∧
      exCand.score ≤ eff.card ∧
      -1 ≤ exCand.priority ∧ exCand.priority ≤ 5 :=
  candidate_bounds exDB exP [exCand] exCand exDB_run (List.mem_singleton.mpr rfl)

/-! ### Claim C8 -/

/-- A second question whose course document cannot be fetched. -/
def fQ2 : QDoc :=
  { tags := [], course := some "cbad", unit := none, course_name := "",
    unit_name := "" }

/-- A store where every course fetch raises: question `q1` never touches
the courses collection, question `q2` does and fails. -/
def fDB : DB :=
  { questions := [("q1", bdQ), ("q2", fQ2)],
    courses := fun _ => .error (),
    units := fun _ _ => .ok none,
    questionById := fun _ => .ok none,
    learning := fun _ _ => .ok none }

/-- C8 counterexample: with `q2`'s course fetch failing, the whole scan
returns the error — no candidate list at all is produced — even though
`q1` on its own passes every filter and yields a candidate. -/
theorem scan_abort_counterexample :
    findRelevantQuestions fDB bdP = .error () ∧
      scanQuestion fDB bdP ("q1", bdQ) = .ok (some bdCand) := by
  have hq1 : scanQuestion fDB bdP ("q1", bdQ) = .ok (some bdCand) :=
    bd_scan_any (by decide)
  refine ⟨?_, hq1⟩
  unfold findRelevantQuestions
  show scanList fDB bdP [("q1", bdQ), ("q2", fQ2)] = _
  unfold scanList
  rw [hq1, show scanList fDB bdP [("q2", fQ2)] = .error () from by decide]

lemma scanList_error_of_mem (db : DB) (P : Params) :
    ∀ (qs : List (String × QDoc)) (q : String × QDoc),
      q ∈ qs → scanQuestion db P q = .error () →
      scanList db P qs = .error () := by
  intro qs
  induction qs with
  | nil => intro q hmem _; simp at hmem
  | cons q0 rest ih =>
    intro q hmem herr
    unfold scanList
    rcases List.mem_cons.mp hmem with rfl | hmem'
    · rw [herr]
    · cases hq0 : scanQuestion db P q0 with
      | error e => cases e; rfl
      | ok c? =>
        dsimp only
        rw [ih q hmem' herr]

/-- C8 amended: a fetch failure while scanning any question is fatal to the
whole scan — the exception propagates out of `find_relevant_questions`, and
no candidate list is produced for the remaining questions. -/
theorem fetch_failure_aborts_scan :
    ∀ (db : DB) (P : Params) (q : String × QDoc),
      q ∈ db.questions → scanQuestion db P q = .error () →
      findRelevantQuestions db P = .error () := by
  intro db P q hmem herr
  exact scanList_error_of_mem db P db.questions q hmem herr

/-- C8 witness: the amended statement at the store whose second question
fails to fetch. -/
theorem fetch_failure_aborts_scan_witness :
    findRelevantQuestions fDB bdP = .error () :=
  fetch_failure_aborts_scan fDB bdP ("q2", fQ2) (by decide) (by decide)

/-! ### Claim C9 -/

/-- C9: when `useUnits` is false, the route's response does not depend on
`unit_id` — unit tags are the empty set, `reference_unit_id` is `None`, and
the same-unit boost is identically zero. -/
theorem response_independent_of_unit_id :
    (∀ (db : DB) (uid cid u1 u2 : Option String) (k : ℕ)
      (sh : List Group → List Group),
      findSimilarCourses db uid cid u1 false k sh =
        findSimilarCourses db uid cid u2 false k sh) ∧
    (∀ u : Option String, sameUnitBoost none u = 0) := by
  constructor
  · intro db uid cid u1 u2 k sh
    unfold findSimilarCourses
    cases uid <;> cases cid <;> simp [Bool.false_and]
  · intro u
    unfold sameUnitBoost pyTruthy
    simp

/-! ### Sorting lemmas -/

/-- The non-strict version of the sort order: `a` may legitimately come
before `b`. -/
def gle (a b : Group) : Prop :=
  b.priority < a.priority ∨
    (a.priority = b.priority ∧ b.total_score ≤ a.total_score)

/-- The exact-key predicate used to state stability. -/
def fk (p : ℚ) (s : ℕ) (g : Group) : Bool :=
  decide (g.priority = p ∧ g.total_score = s)

lemma gle_of_not_keyLT {a b : Group} (h : ¬ keyLT b a) : gle a b := by
  unfold keyLT at h
  push_neg at h
  unfold gle
  rcases lt_or_eq_of_le h.1 with hlt | heq
  · exact Or.inl hlt
  · exact Or.inr ⟨heq.symm, h.2 heq⟩

lemma gle_of_keyLT {a b : Group} (h : keyLT a b) : gle a b := by
  unfold keyLT at h
  unfold gle
  rcases h with h | ⟨h1, h2⟩
  · exact Or.inl h
  · exact Or.inr ⟨h1, le_of_lt h2⟩

lemma gle_trans {a b c : Group} (h1 : gle a b) (h2 : gle b c) : gle a c := by
  unfold gle at h1 h2 ⊢
  rcases h1 with h1 | ⟨h1e, h1s⟩ <;> rcases h2 with h2 | ⟨h2e, h2s⟩
  · exact Or.inl (lt_trans h2 h1)
  · exact Or.inl (by rw [← h2e]; exact h1)
  · exact Or.inl (by rw [h1e]; exact h2)
  · exact Or.inr ⟨h1e.trans h2e, le_trans h2s h1s⟩

lemma not_keyLT_of_keys_eq {a b : Group} (hp : a.priority = b.priority)
    (hs : a.total_score = b.total_score) : ¬ keyLT b a := by
  unfold keyLT
  rintro (h | ⟨h1, h2⟩)
  · exact absurd h (by rw [hp]; exact lt_irrefl _)
  · exact absurd h2 (by rw [hs]; exact lt_irrefl _)

lemma mem_insertG {a x : Group} :
    ∀ l : List Group, x ∈ insertG a l → x = a ∨ x ∈ l := by
  intro l
  induction l with
  | nil =>
    intro h
    unfold insertG at h
    exact Or.inl (List.mem_singleton.mp h)
  | cons b bs ih =>
    intro h
    unfold insertG at h
    split_ifs at h
    · rcases List.mem_cons.mp h with rfl | h'
      · exact Or.inr (List.mem_cons_self _ _)
      · rcases ih h' with h'' | h''
        · exact Or.inl h''
        · exact Or.inr (List.mem_cons_of_mem _ h'')
    · rcases List.mem_cons.mp h with rfl | h'
      · exact Or.inl rfl
      · exact Or.inr h'

lemma insertG_pairwise {a : Group} :
    ∀ {l : List Group}, l.Pairwise gle → (insertG a l).Pairwise gle := by
  intro l
  induction l with
  | nil =>
    intro _
    unfold insertG
    simp
  | cons b bs ih =>
    intro h
    rw [List.pairwise_cons] at h
    unfold insertG
    split_ifs with hlt
    · rw [List.pairwise_cons]
      refine ⟨fun x hx => ?_, ih h.2⟩
      rcases mem_insertG bs hx with rfl | hx'
      · exact gle_of_keyLT hlt
      · exact h.1 x hx'
    · rw [List.pairwise_cons]
      refine ⟨fun x hx => ?_, List.pairwise_cons.mpr h⟩
      rcases List.mem_cons.mp hx with rfl | hx'
      · exact gle_of_not_keyLT hlt
      · exact gle_trans (gle_of_not_keyLT hlt) (h.1 x hx')

lemma sortGroups_pairwise : ∀ l : List Group, (sortGroups l).Pairwise gle := by
  intro l
  induction l with
  | nil => unfold sortGroups; simp
  | cons g gs ih =>
    unfold sortGroups
    exact insertG_pairwise ih

lemma insertG_perm (a : Group) :
    ∀ l : List Group, List.Perm (insertG a l) (a :: l) := by
  intro l
  induction l with
  | nil => unfold insertG; exact List.Perm.refl _
  | cons b bs ih =>
    unfold insertG
    split_ifs
    · exact (ih.cons b).trans (List.Perm.swap a b bs)
    · exact List.Perm.refl _

lemma sortGroups_perm : ∀ l : List Group, List.Perm (sortGroups l) l := by
  intro l
  induction l with
  | nil => exact List.Perm.refl _
  | cons g gs ih =>
    unfold sortGroups
    exact (insertG_perm g (sortGroups gs)).trans (ih.cons g)

lemma fk_keys {p : ℚ} {s : ℕ} {g : Group} (h : fk p s g = true) :
    g.priority = p ∧ g.total_score = s := of_decide_eq_true h

lemma insertG_filter (p : ℚ) (s : ℕ) (a : Group) :
    ∀ l : List Group,
      (insertG a l).filter (fk p s) =
        if fk p s a = true then a :: l.filter (fk p s)
        else l.filter (fk p s) := by
  intro l
  induction l with
  | nil =>
    unfold insertG
    rw [List.filter_cons]
  | cons b bs ih =>
    unfold insertG
    by_cases hlt : keyLT b a
    · rw [if_pos hlt]
      by_cases hfa : fk p s a = true
      · have hfb : ¬ fk p s b = true := by
          intro hfb
          obtain ⟨hap, has⟩ := fk_keys hfa
          obtain ⟨hbp, hbs⟩ := fk_keys hfb
          exact not_keyLT_of_keys_eq (hap.trans hbp.symm) (has.trans hbs.symm) hlt
        simp [List.filter_cons, ih, hfa, hfb]
      · by_cases hfb : fk p s b = true
        · simp [List.filter_cons, ih, hfa, hfb]
        · simp [List.filter_cons, ih, hfa, hfb]
    · rw [if_neg hlt, List.filter_cons]

lemma sortGroups_filter (p : ℚ) (s : ℕ) :
    ∀ l : List Group,
      (sortGroups l).filter (fk p s) = l.filter (fk p s) := by
  intro l
  induction l with
  | nil => rfl
  | cons g gs ih =>
    unfold sortGroups
    rw [insertG_filter, List.filter_cons]
    by_cases h : fk p s g = true
    · rw [if_pos h, if_pos h, ih]
    · rw [if_neg h, if_neg h, ih]

/-! ### Claim C3 -/

/-- C3: before truncation the groups are sorted so that strictly greater
summed priority comes first, ties are broken by greater summed score, and
groups equal in both keep their encounter order (the sort is a stable
permutation). -/
theorem groups_sorted_by_priority_then_score :
    ∀ cs : List Candidate,
      (sortGroups (groupCandidates cs)).Perm (groupCandidates cs) ∧
      (sortGroups (groupCandidates cs)).Pairwise (fun a b =>
        b.priority < a.priority ∨
          (a.priority = b.priority ∧ b.total_score ≤ a.total_score)) ∧
      ∀ (p : ℚ) (s : ℕ),
        (sortGroups (groupCandidates cs)).filter
            (fun g => decide (g.priority = p ∧ g.total_score = s)) =
          (groupCandidates cs).filter
            (fun g => decide (g.priority = p ∧ g.total_score = s)) :=
  fun cs =>
    ⟨sortGroups_perm (groupCandidates cs),
      sortGroups_pairwise (groupCandidates cs),
      fun p s => sortGroups_filter p s (groupCandidates cs)⟩

/-! ### Claim C4 -/

/-- C4: whatever permutation the shuffle applies, the set of
`(course_id, unit_id)` keys returned by `group_and_rank` equals the keys of
the first `topK` groups of the deterministic priority/score sort; only the
display order can differ between runs. -/
theorem topk_membership_shuffle_invariant :
    ∀ (db : DB) (cs : List Candidate) (k : ℕ) (sh : List Group → List Group)
      (gs : List Group) (out : List GroupOut),
      (∀ l : List Group, (sh l).Perm l) →
      resolveAll db (groupCandidates cs) = .ok gs →
      groupAndRank db cs k sh = .ok out →
      (out.map fun g => (g.course_id, g.unit_id)).toFinset =
        (((sortGroups gs).take k).map fun g =>
          (g.course_id, g.unit_id)).toFinset := by
  intro db cs k sh gs out hsh hres hrun
  unfold groupAndRank at hrun
  rw [hres] at hrun
  dsimp only at hrun
  have hout : out = (sh ((sortGroups gs).take k)).map toOut :=
    (Except.ok.inj hrun).symm
  subst hout
  rw [List.map_map]
  have hcomp :
      ((fun g : GroupOut => (g.course_id, g.unit_id)) ∘ toOut) =
        fun g : Group => (g.course_id, g.unit_id) := rfl
  rw [hcomp]
  exact List.toFinset_eq_of_perm _ _
    ((hsh ((sortGroups gs).take k)).map fun g => (g.course_id, g.unit_id))

/-- The single group formed from the boundary candidate, names resolved. -/
def bdGroup : Group :=
  { course_id := none, unit_id := none, questions := ["q1"], priority := 1,
    total_score := 0, course_name := "", unit_name := "" }

lemma bd_resolve : resolveAll bdDB (groupCandidates [bdCand]) = .ok [bdGroup] := by
  have hg : groupCandidates [bdCand] =
      [{ course_id := none, unit_id := none, questions := ["q1"],
         priority := 0 + 1, total_score := 0 + 0, course_name := "",
         unit_name := "" }] := rfl
  rw [hg]
  unfold resolveAll resolveNames resolveCourseName resolveUnitName
  norm_num [bdDB, bdGroup, pyTruthy]
  rfl

/-- The response row for the boundary group. -/
def bdOut : GroupOut :=
  { course_id := none, course_name := "", unit_id := none, unit_name := "",
    questions := ["q1"] }

lemma bd_groupAndRank :
    groupAndRank bdDB [bdCand] 1 List.reverse = .ok [bdOut] := by
  unfold groupAndRank
  rw [bd_resolve]
  rfl

/-- C4 witness: on the boundary store with `topK = 1` and `reverse` as the
shuffle, the returned key set equals the keys of the first group of the
deterministic sort. -/
theorem topk_membership_shuffle_invariant_witness :
    ([bdOut].map fun g => (g.course_id, g.unit_id)).toFinset =
      (((sortGroups [bdGroup]).take 1).map fun g =>
        (g.course_id, g.unit_id)).toFinset :=
  topk_membership_shuffle_invariant bdDB [bdCand] 1 List.reverse [bdGroup]
    [bdOut] (fun l => l.reverse_perm) bd_resolve bd_groupAndRank

end SB
